import Mathlib

/-!
Verification of the workflow streaming client of the AI Hub repository.

The embedded code is the frontend streaming layer in
`src/frontend/src/App.jsx` (the api module: `sendMessageStream`,
`sendMessageWithImageStream`, `sendMessageWithWorkflowStream`,
`submitApprovalAndContinue`), the step-state hook
`src/frontend/src/hooks/useWorkflow.js` (`updateSteps`, `initWorkflow`),
and the approval decision handler in
`src/frontend/src/components/ChatPanel.jsx`.

Modelling conventions:
- A decoded network chunk is a `List Char` (the JS `TextDecoder` with
  `stream: true` turns the byte stream into text; we model the text).
- `JSON.parse` is an abstract parameter `pj : List Char → Option Event`:
  `some e` means the payload parses to a JSON value whose fields, read as
  the event fields the client looks at, are those of `e` (a missing field
  is the empty string / `none`); `none` means `JSON.parse` throws.
- Callback invocations are reified as a list of `Call` values, in the
  order the JS code performs them.
-/

namespace AIHub

/-- One step object as it appears in the `all_steps` arrays sent by the
server and consumed by `updateSteps` (fields `step`, `label`, `status`). -/
structure RawStep where
  step : String
  label : String
  status : String
deriving DecidableEq

/-- The fields of a parsed SSE event that the client dispatch code reads:
`type`, `content`, `all_steps`, `step`.  A field absent from the JSON is
modelled as `""` (for strings, matching JS falsiness of `undefined` and
`""` alike in the `if (parsed.content)` test) or `none` (for `all_steps`,
matching the `parsed.all_steps || ...` fallback). -/
structure Event where
  type : String
  content : String
  all_steps : Option (List RawStep)
  step : RawStep
deriving DecidableEq

/-- A reified callback invocation made by the streaming client code. -/
inductive Call where
  /-- an `onStepUpdate(steps)` invocation -/
  | stepUpdate (steps : List RawStep)
  /-- an `onResponse(content)` invocation -/
  | response (content : String)
  /-- an `onApprovalRequired(parsed)` invocation -/
  | approvalRequired (e : Event)
  /-- an `onChunk(content)` invocation (plain text stream) -/
  | chunk (content : String)
deriving DecidableEq

/-- Event dispatch of `sendMessageWithWorkflowStream`
(`src/frontend/src/App.jsx` lines 337-349): `workflow_step` feeds
`onStepUpdate(parsed.all_steps || [parsed.step])`; `response` feeds
`onResponse(parsed.content)`; `error` feeds
`onResponse('❌ Error: ' + parsed.content)`; `approval_required` (when an
`onApprovalRequired` callback was supplied) feeds
`onStepUpdate(parsed.all_steps || [])` then `onApprovalRequired(parsed)`;
any other type falls through with no callback. -/
def handleEventWorkflow (hasApprovalCb : Bool) (e : Event) : List Call :=
  if e.type = "workflow_step" then
    [Call.stepUpdate (e.all_steps.getD [e.step])]
  else if e.type = "response" then
    [Call.response e.content]
  else if e.type = "error" then
    [Call.response ("❌ Error: " ++ e.content)]
  else if e.type = "approval_required" ∧ hasApprovalCb then
    [Call.stepUpdate (e.all_steps.getD []), Call.approvalRequired e]
  else
    []

/-- Event dispatch of `sendMessageWithImageStream`
(`src/frontend/src/App.jsx` lines 272-283); the source duplicates the
workflow-stream dispatch verbatim. -/
def handleEventImage (hasApprovalCb : Bool) (e : Event) : List Call :=
  if e.type = "workflow_step" then
    [Call.stepUpdate (e.all_steps.getD [e.step])]
  else if e.type = "response" then
    [Call.response e.content]
  else if e.type = "error" then
    [Call.response ("❌ Error: " ++ e.content)]
  else if e.type = "approval_required" ∧ hasApprovalCb then
    [Call.stepUpdate (e.all_steps.getD []), Call.approvalRequired e]
  else
    []

/-- Event dispatch of `submitApprovalAndContinue`
(`src/frontend/src/App.jsx` lines 452-459): only `workflow_step`,
`response` and `error` have branches; every other type, in particular
`approval_required`, falls through with no callback. -/
def handleEventContinue (e : Event) : List Call :=
  if e.type = "workflow_step" then
    [Call.stepUpdate (e.all_steps.getD [e.step])]
  else if e.type = "response" then
    [Call.response e.content]
  else if e.type = "error" then
    [Call.response ("❌ Error: " ++ e.content)]
  else
    []

/-- Characters of a decoded chunk or of one SSE line. -/
abbrev Chars := List Char

/-- The `data: ` line prefix tested by `line.startsWith('data: ')`. -/
def dataPrefix : Chars := "data: ".toList

/-- The `[DONE]` sentinel payload. -/
def doneChars : Chars := "[DONE]".toList

/-- Payload handling of the workflow stream: `JSON.parse` the payload and
dispatch; a parse failure is caught and only logged (`console.warn`), so
it produces no callback (App.jsx lines 336-352). -/
def handleDataWorkflow (pj : Chars → Option Event) (hasApprovalCb : Bool)
    (d : Chars) : List Call :=
  match pj d with
  | some e => handleEventWorkflow hasApprovalCb e
  | none => []

/-- Payload handling of the image stream: identical structure
(App.jsx lines 271-287). -/
def handleDataImage (pj : Chars → Option Event) (hasApprovalCb : Bool)
    (d : Chars) : List Call :=
  match pj d with
  | some e => handleEventImage hasApprovalCb e
  | none => []

/-- Payload handling of the continue stream (App.jsx lines 451-462):
parse failures are caught and only logged. -/
def handleDataContinue (pj : Chars → Option Event) (d : Chars) : List Call :=
  match pj d with
  | some e => handleEventContinue e
  | none => []

/-- JS `String.prototype.trim` on the characters of a payload: drop
whitespace from both ends. -/
def jsTrim (d : Chars) : Chars :=
  ((d.dropWhile Char.isWhitespace).reverse.dropWhile Char.isWhitespace).reverse

/-- Payload handling of `sendMessageStream` (App.jsx lines 194-204): on a
successful parse, `onChunk(parsed.content)` is invoked when `parsed.content`
is truthy; on a parse failure the payload is treated as raw text and
delivered through `onChunk(data)` whenever `data.trim()` is truthy. -/
def handleDataSimple (pj : Chars → Option Event) (d : Chars) : List Call :=
  match pj d with
  | some e => if e.content ≠ "" then [Call.chunk e.content] else []
  | none =>
      if jsTrim d ≠ [] then [Call.chunk (String.mk d)] else []

/-- Process a list of complete SSE lines, as the inner `for` loop of each
streaming function does: a line not starting with `data: ` is skipped; on
a `data: ` line the payload is `line.slice(6)`; payload `[DONE]` returns
immediately (the `Bool` component records that the function returned);
any other payload is delegated to the payload handler `hd`. -/
def procLines (hd : Chars → List Call) : List Chars → List Call × Bool
  | [] => ([], false)
  | l :: ls =>
    if dataPrefix.isPrefixOf l then
      let d := l.drop 6
      if d = doneChars then ([], true)
      else
        let r := procLines hd ls
        (hd d ++ r.1, r.2)
    else procLines hd ls

/-- JS `s.split('\n')` on the characters of `s`: always returns at least
one (possibly empty) piece. -/
def splitNl : Chars → List Chars
  | [] => [[]]
  | c :: cs =>
    if c = '\n' then [] :: splitNl cs
    else
      match splitNl cs with
      | l :: ls => (c :: l) :: ls
      | [] => [[c]]

/-- JS `const lines = buffer.split('\n'); buffer = lines.pop() || ''` in
one pass: the complete (newline-terminated) lines of the text, and the
trailing incomplete piece that stays in the buffer.  It satisfies
`splitNl s = (splitBuf s).1 ++ [(splitBuf s).2]`. -/
def splitBuf : Chars → List Chars × Chars
  | [] => ([], [])
  | c :: cs =>
    if c = '\n' then ([] :: (splitBuf cs).1, (splitBuf cs).2)
    else
      match splitBuf cs with
      | ([], r) => ([], c :: r)
      | (l :: ls, r) => ((c :: l) :: ls, r)

/-- The buffered read loop shared by `sendMessageWithWorkflowStream`
(App.jsx lines 318-355), `sendMessageWithImageStream` (lines 254-289) and
`submitApprovalAndContinue` (lines 434-465): each read chunk is appended
to `buffer`, the accumulated text is split on newlines, the last
(incomplete) piece becomes the new buffer, and the complete lines are
processed; a `[DONE]` payload returns from the whole function, so the
remaining chunks are never examined (third argument `true`). -/
def runStream (hd : Chars → List Call) : List Chars → Chars → Bool → List Call
  | [], _, _ => []
  | _ :: _, _, true => []
  | c :: cs, buf, false =>
    let r := procLines hd (splitBuf (buf ++ c)).1
    r.1 ++ (if r.2 then [] else runStream hd cs (splitBuf (buf ++ c)).2 false)

/-- All callback invocations a buffered stream parser performs on a given
sequence of read chunks. -/
def streamCalls (hd : Chars → List Call) (chunks : List Chars) : List Call :=
  runStream hd chunks [] false

/-- The unbuffered read loop of `sendMessageStream` (App.jsx lines
181-207): each chunk is split on newlines separately, with no carry-over
buffer, and every piece (including the last) is processed; `[DONE]`
returns from the whole function. -/
def simpleRun (pj : Chars → Option Event) : List Chars → List Call
  | [] => []
  | c :: cs =>
    let r := procLines (handleDataSimple pj) (splitNl c)
    r.1 ++ (if r.2 then [] else simpleRun pj cs)

/-- A minimal JSON value model for request bodies the client sends. -/
inductive JVal where
  | str (s : String)
  | bool (b : Bool)
deriving DecidableEq

/-- The JSON body `JSON.stringify({ approval_id: approvalId, approved })`
sent by `submitApprovalAndContinue` to `/api/approval/continue-stream`
(App.jsx lines 422-425), as an ordered field list. -/
def continueRequestBody (approvalId : String) (approved : Bool) :
    List (String × JVal) :=
  [("approval_id", JVal.str approvalId), ("approved", JVal.bool approved)]

/-- The body built by `handleApprovalDecision` in ChatPanel.jsx (lines
357-361): it forwards `pendingApproval.approval_id` and the boolean
decision to `submitApprovalAndContinue`. -/
def handleApprovalDecisionBody (pendingApprovalId : String)
    (approved : Bool) : List (String × JVal) :=
  continueRequestBody pendingApprovalId approved

/-- The flattened non-streamed reply used on fallback: the fields the
caller reads are `workflow_steps` (may be absent) and `response`. -/
structure FallbackResp where
  workflow_steps : Option (List RawStep)
  response : String

/-- Callbacks delivered by the non-streaming fallback of
`sendMessageWithWorkflowStream` (App.jsx lines 306-314): one fallback
request is made; `onStepUpdate(fallbackResponse.workflow_steps)` is
invoked when that field is present, then `onResponse(fallbackResponse.response)`. -/
def workflowFallbackCalls (fb : FallbackResp) : List Call :=
  (match fb.workflow_steps with
   | some ws => [Call.stepUpdate ws]
   | none => []) ++ [Call.response fb.response]

/-- Callbacks delivered by the non-streaming fallback of
`sendMessageWithImageStream` (App.jsx lines 242-250); same shape. -/
def imageFallbackCalls (fb : FallbackResp) : List Call :=
  (match fb.workflow_steps with
   | some ws => [Call.stepUpdate ws]
   | none => []) ++ [Call.response fb.response]

/-- `sendMessageWithWorkflowStream`, abstracted over the transport: `ok`
is `response.ok`; when it is false the function makes exactly one
non-streamed request (whose flattened reply is `fb`) and returns, and
otherwise it runs the buffered stream loop on the read chunks. -/
def sendMessageWithWorkflowStreamCalls (pj : Chars → Option Event)
    (hasApprovalCb : Bool) (ok : Bool) (fb : FallbackResp)
    (chunks : List Chars) : List Call :=
  if ok then streamCalls (handleDataWorkflow pj hasApprovalCb) chunks
  else workflowFallbackCalls fb

/-- `sendMessageWithImageStream`, abstracted the same way. -/
def sendMessageWithImageStreamCalls (pj : Chars → Option Event)
    (hasApprovalCb : Bool) (ok : Bool) (fb : FallbackResp)
    (chunks : List Chars) : List Call :=
  if ok then streamCalls (handleDataImage pj hasApprovalCb) chunks
  else imageFallbackCalls fb

/-- `submitApprovalAndContinue`, abstracted over the transport: a non-OK
status throws (`none`); otherwise the buffered stream loop runs. -/
def submitApprovalAndContinueCalls (pj : Chars → Option Event) (ok : Bool)
    (chunks : List Chars) : Option (List Call) :=
  if ok then some (streamCalls (handleDataContinue pj) chunks)
  else none

/-- A stored workflow step as kept by the `useWorkflow` hook. -/
structure WStep where
  id : String
  label : String
  status : String
  icon : String
deriving DecidableEq

/-- `updateSteps` from `src/frontend/src/hooks/useWorkflow.js` lines
78-87: a falsy (`none`) or empty argument leaves the stored list
unchanged; otherwise the whole stored list is replaced by the mapped
input, copying each entry field `step` into both `id` and `icon`. -/
def updateSteps (cur : List WStep) : Option (List RawStep) → List WStep
  | none => cur
  | some ns =>
    if ns.length = 0 then cur
    else ns.map (fun s => ⟨s.step, s.label, s.status, s.step⟩)

/-- A parse function under which no payload is valid JSON (every
`JSON.parse` call throws); used to exhibit concrete behaviours. -/
def pjNone : Chars → Option Event := fun _ => none

/-- A concrete parsed event whose `type` is the literal `step` of the
specification (rather than the `workflow_step` the code tests for). -/
def stepTypedEvent : Event :=
  ⟨"step", "done", some [⟨"intake", "Intake", "complete"⟩],
    ⟨"intake", "Intake", "complete"⟩⟩

/-- A concrete parsed event of type `error` with content `boom`. -/
def errorEventBoom : Event := ⟨"error", "boom", none, ⟨"", "", ""⟩⟩

/-- A concrete parsed event of type `approval_required`. -/
def approvalEvent : Event :=
  ⟨"approval_required", "", some [⟨"approval", "Approval", "active"⟩],
    ⟨"", "", ""⟩⟩

/-- Recognizer for `onStepUpdate` invocations. -/
def isStepUpdateCall : Call → Bool
  | Call.stepUpdate _ => true
  | _ => false

/-- Recognizer for `onResponse` invocations. -/
def isResponseCall : Call → Bool
  | Call.response _ => true
  | _ => false

/-- Per-run step status, as visualized by the client
(`pending`, `active`, `complete`, `rejected`). -/
inductive Status where
  | pending
  | active
  | complete
  | rejected
deriving DecidableEq

/-- The status list of a step snapshot in which the first `done` steps
are complete, the current step has status `s`, and `after` steps are
still pending. -/
def snapSt (done : Nat) (s : Status) (after : Nat) : List Status :=
  List.replicate done .complete ++ s :: List.replicate after .pending

/-- The status list of a resting state: `done` completed steps followed
by `after` pending ones (the state between steps, and the state
`initWorkflow`/`resetWorkflow` produce with `done = 0`). -/
def baseSt (done : Nat) (after : Nat) : List Status :=
  List.replicate done .complete ++ List.replicate after .pending

/-- Modelled from the spec: the backend Run State Machine and Event
Emitter (spec sections 4.2 and 4.3) are not part of the frontend source
tree, so the step-snapshot lists they stream are modelled here.  The
machine walks the remaining step flags (`true` marks a checkpoint),
having already completed `done` steps.  A non-checkpoint step is set
`active` immediately before execution and `complete` immediately after;
a checkpoint step is set `active` and the run suspends until a decision
is available: `true` (approve) marks it `complete` and resumes, `false`
(reject) marks it `rejected` and terminates the run.  Each status change
emits the full snapshot list. -/
def runTraceAux : Nat → List Bool → List Bool → List (List Status)
  | _, [], _ => []
  | done, f :: rest, ds =>
    if f then
      snapSt done .active rest.length ::
        (match ds with
         | [] => []
         | d :: ds' =>
           if d then
             snapSt done .complete rest.length :: runTraceAux (done + 1) rest ds'
           else [snapSt done .rejected rest.length])
    else
      snapSt done .active rest.length :: snapSt done .complete rest.length ::
        runTraceAux (done + 1) rest ds

/-- The successive step-list status states held by the client for a run:
the `initWorkflow` state (every step pending) followed by the snapshot of
each streamed step event, which `updateSteps` mirrors verbatim into the
stored list. -/
def clientStatusTrace (flags : List Bool) (ds : List Bool) :
    List (List Status) :=
  baseSt 0 flags.length :: runTraceAux 0 flags ds

/-- The status a client observes for the step at index `i` of a snapshot
(`pending` when out of range; every snapshot of a run has full length). -/
def getiSt : Nat → List Status → Status
  | _, [] => .pending
  | 0, s :: _ => s
  | i + 1, _ :: l => getiSt i l

/-- One admissible move of a single step status between two successively
observed states: unchanged, `pending` to `active`, or `active` to a
terminal `complete`/`rejected` — never skipping `active`, never
regressing. -/
def stepOk (x y : Status) : Prop :=
  x = y ∨ (x = .pending ∧ y = .active) ∨
    (x = .active ∧ (y = .complete ∨ y = .rejected))

/-- How the line/buffer split of a concatenation `a ++ b` is assembled
from the splits of `a` and of `b`: the leftover of `a` continues into the
first line of `b` (or into the leftover when `b` completes no line). -/
def glueLines (la : List Chars) (ra : Chars) (p : List Chars × Chars) :
    List Chars × Chars :=
  match p with
  | ([], rb) => (la, ra ++ rb)
  | (y :: ys, rb) => (la ++ (ra ++ y) :: ys, rb)

/-- Claim C1, counterexample: an event whose `type` is the literal `step`
of the specification receives no dispatch at all — none of the three
stream parsers invokes any callback for it, because the code tests for
the type value `workflow_step`, not `step`. -/
theorem c1_counterexample :
    stepTypedEvent.type = "step" ∧
    handleEventWorkflow true stepTypedEvent = [] ∧
    handleEventImage true stepTypedEvent = [] ∧
    handleEventContinue stepTypedEvent = [] := by
  refine ⟨rfl, ?_, ?_, ?_⟩ <;> decide

/-- Claim C1, amended: the type values the client parsers dispatch on are
`workflow_step`, `response`, `error` and `approval_required` (not `step`):
`sendMessageWithWorkflowStream` and `sendMessageWithImageStream` invoke a
callback exactly for these four (`approval_required` only when an
approval callback was supplied), and `submitApprovalAndContinue` exactly
for the first three. -/
theorem c1_amended (hb : Bool) (e : Event) :
    (handleEventWorkflow hb e ≠ [] ↔
      (e.type = "workflow_step" ∨ e.type = "response" ∨ e.type = "error" ∨
        (e.type = "approval_required" ∧ hb = true))) ∧
    (handleEventImage hb e ≠ [] ↔
      (e.type = "workflow_step" ∨ e.type = "response" ∨ e.type = "error" ∨
        (e.type = "approval_required" ∧ hb = true))) ∧
    (handleEventContinue e ≠ [] ↔
      (e.type = "workflow_step" ∨ e.type = "response" ∨ e.type = "error")) := by
  refine ⟨?_, ?_, ?_⟩ <;>
    · simp only [handleEventWorkflow, handleEventImage, handleEventContinue]
      split_ifs <;> simp_all

/-- Claim C3, counterexample: the continue request body the client
actually sends has fields `approval_id` and `approved` (a boolean), not
`token` and `decision`, and no field holds the string `approve` or
`reject`. -/
theorem c3_counterexample :
    (continueRequestBody "tok" true).map Prod.fst = ["approval_id", "approved"] ∧
    (continueRequestBody "tok" true).map Prod.fst ≠ ["token", "decision"] ∧
    ∀ v ∈ (continueRequestBody "tok" true).map Prod.snd,
      v ≠ JVal.str "approve" ∧ v ≠ JVal.str "reject" := by
  decide

/-- Claim C3, amended: the continue request body carries exactly an
`approval_id` field holding the approval token string and an `approved`
field holding the boolean decision, and `handleApprovalDecision` in the
chat panel builds exactly this body from the pending approval. -/
theorem c3_amended (approvalId : String) (approved : Bool) :
    (continueRequestBody approvalId approved).map Prod.fst =
      ["approval_id", "approved"] ∧
    (continueRequestBody approvalId approved).lookup "approval_id" =
      some (JVal.str approvalId) ∧
    (continueRequestBody approvalId approved).lookup "approved" =
      some (JVal.bool approved) ∧
    handleApprovalDecisionBody approvalId approved =
      continueRequestBody approvalId approved := by
  refine ⟨rfl, ?_, ?_, rfl⟩ <;> simp [continueRequestBody, List.lookup]

/-- Claim C4: when the streaming endpoint answers with a non-OK status,
each start-style caller falls back to one non-streamed request and
flattens its reply into callbacks: exactly one `onResponse` invocation
carrying the `response` field, and an `onStepUpdate` invocation carrying
`workflow_steps` exactly when that field is present. -/
theorem c4_fallbackFlattens (pj : Chars → Option Event) (hb : Bool)
    (fb : FallbackResp) (chunks : List Chars) :
    (sendMessageWithWorkflowStreamCalls pj hb false fb chunks).filter
        isResponseCall = [Call.response fb.response] ∧
    (sendMessageWithWorkflowStreamCalls pj hb false fb chunks).filter
        isStepUpdateCall =
      (match fb.workflow_steps with
       | some ws => [Call.stepUpdate ws]
       | none => []) ∧
    (sendMessageWithImageStreamCalls pj hb false fb chunks).filter
        isResponseCall = [Call.response fb.response] ∧
    (sendMessageWithImageStreamCalls pj hb false fb chunks).filter
        isStepUpdateCall =
      (match fb.workflow_steps with
       | some ws => [Call.stepUpdate ws]
       | none => []) := by
  cases fb with
  | mk ws resp =>
    cases ws <;>
      simp [sendMessageWithWorkflowStreamCalls, sendMessageWithImageStreamCalls,
        workflowFallbackCalls, imageFallbackCalls, isResponseCall,
        isStepUpdateCall, List.filter]

/-- Claim C5, counterexample: `sendMessageStream` does not ignore a
`data: ` line whose payload is not parseable as JSON and is not the
sentinel — it delivers the raw payload through `onChunk`. -/
theorem c5_counterexample :
    pjNone ("hello".toList) = none ∧
    "hello".toList ≠ doneChars ∧
    simpleRun pjNone ["data: hello".toList] = [Call.chunk "hello"] := by
  refine ⟨rfl, by decide, ?_⟩
  decide

/-- Claim C5, amended: for a received `data: ` payload that is not
parseable as JSON and is not the sentinel, the workflow, image and
continue stream parsers ignore the line (no callback), while
`sendMessageStream` falls back to treating the payload as raw text:
it delivers it through `onChunk` when its trim is nonempty and ignores
it otherwise. -/
theorem c5_amended (pj : Chars → Option Event) (hb : Bool) (d : Chars)
    (h : pj d = none) :
    handleDataWorkflow pj hb d = [] ∧
    handleDataImage pj hb d = [] ∧
    handleDataContinue pj d = [] ∧
    handleDataSimple pj d =
      (if jsTrim d ≠ [] then [Call.chunk (String.mk d)] else []) := by
  simp [handleDataWorkflow, handleDataImage, handleDataContinue,
    handleDataSimple, h]

/-- Claim C5, amended, witness at the concrete payload `hello`. -/
theorem c5_amended_witness :
    handleDataWorkflow pjNone true ("hello".toList) = [] ∧
    handleDataImage pjNone true ("hello".toList) = [] ∧
    handleDataContinue pjNone ("hello".toList) = [] ∧
    handleDataSimple pjNone ("hello".toList) =
      (if jsTrim ("hello".toList) ≠ [] then
        [Call.chunk (String.mk ("hello".toList))] else []) :=
  c5_amended pjNone true ("hello".toList) rfl

/-- Claim C6, counterexample: an `error` event with content `boom` is
delivered to the response callback as `❌ Error: boom`, not as the
unmodified content string. -/
theorem c6_counterexample :
    errorEventBoom.content = "boom" ∧
    handleEventWorkflow true errorEventBoom = [Call.response "❌ Error: boom"] ∧
    handleEventImage true errorEventBoom = [Call.response "❌ Error: boom"] ∧
    handleEventContinue errorEventBoom = [Call.response "❌ Error: boom"] ∧
    handleEventWorkflow true errorEventBoom ≠ [Call.response "boom"] := by
  refine ⟨rfl, ?_, ?_, ?_, ?_⟩ <;> decide

/-- Claim C6, amended: for every event of type `error`, each stream
parser delivers the content prefixed with `❌ Error: ` to the response
callback — the content is displayed with that prefix, not unmodified. -/
theorem c6_amended (hb : Bool) (e : Event) (h : e.type = "error") :
    handleEventWorkflow hb e = [Call.response ("❌ Error: " ++ e.content)] ∧
    handleEventImage hb e = [Call.response ("❌ Error: " ++ e.content)] ∧
    handleEventContinue e = [Call.response ("❌ Error: " ++ e.content)] := by
  refine ⟨?_, ?_, ?_⟩ <;>
    · simp only [handleEventWorkflow, handleEventImage, handleEventContinue]
      simp [h]

/-- Claim C6, amended, witness at the concrete error event. -/
theorem c6_amended_witness :
    handleEventWorkflow true errorEventBoom =
      [Call.response ("❌ Error: " ++ errorEventBoom.content)] ∧
    handleEventImage true errorEventBoom =
      [Call.response ("❌ Error: " ++ errorEventBoom.content)] ∧
    handleEventContinue errorEventBoom =
      [Call.response ("❌ Error: " ++ errorEventBoom.content)] :=
  c6_amended true errorEventBoom rfl

/-- Auxiliary: mapping a raw step list into stored steps relates each
stored entry to its source entry fieldwise. -/
theorem forall₂_updateMap (ns : List RawStep) :
    List.Forall₂
      (fun (w : WStep) (s : RawStep) =>
        w.id = s.step ∧ w.icon = s.step ∧ w.label = s.label ∧
          w.status = s.status)
      (ns.map (fun s => ⟨s.step, s.label, s.status, s.step⟩)) ns := by
  induction ns with
  | nil => exact List.Forall₂.nil
  | cons a l ih => exact List.Forall₂.cons ⟨rfl, rfl, rfl, rfl⟩ ih

/-- Claim C10: `updateSteps` leaves the stored list unchanged on a null
or empty update; on a nonempty update it replaces the whole list
independently of the previous contents, copying each entry field `step`
into both `id` and `icon` and preserving `label` and `status`. -/
theorem c10_updateSteps (cur cur' : List WStep) (ns : List RawStep)
    (h : ns ≠ []) :
    updateSteps cur none = cur ∧
    updateSteps cur (some []) = cur ∧
    updateSteps cur (some ns) = updateSteps cur' (some ns) ∧
    List.Forall₂
      (fun (w : WStep) (s : RawStep) =>
        w.id = s.step ∧ w.icon = s.step ∧ w.label = s.label ∧
          w.status = s.status)
      (updateSteps cur (some ns)) ns := by
  have hlen : ns.length ≠ 0 := fun hl => h (List.length_eq_zero.mp hl)
  refine ⟨rfl, rfl, ?_, ?_⟩
  · simp [updateSteps, hlen]
  · simp only [updateSteps, hlen, if_false, ite_false, if_neg hlen]
    exact forall₂_updateMap ns

/-- Claim C10, witness at a concrete stored list and update. -/
theorem c10_updateSteps_witness :
    updateSteps [⟨"a", "A", "pending", "a"⟩] none = [⟨"a", "A", "pending", "a"⟩] ∧
    updateSteps [⟨"a", "A", "pending", "a"⟩] (some []) =
      [⟨"a", "A", "pending", "a"⟩] ∧
    updateSteps [⟨"a", "A", "pending", "a"⟩]
        (some [⟨"b", "B", "active"⟩]) =
      updateSteps [] (some [⟨"b", "B", "active"⟩]) ∧
    List.Forall₂
      (fun (w : WStep) (s : RawStep) =>
        w.id = s.step ∧ w.icon = s.step ∧ w.label = s.label ∧
          w.status = s.status)
      (updateSteps [⟨"a", "A", "pending", "a"⟩]
        (some [⟨"b", "B", "active"⟩]))
      [⟨"b", "B", "active"⟩] :=
  c10_updateSteps [⟨"a", "A", "pending", "a"⟩] []
    [⟨"b", "B", "active"⟩] (by decide)

/-- Auxiliary: a callback produced by the line-processing loop comes from
the payload handler applied to the payload of some line. -/
theorem mem_procLines {hd : Chars → List Call} {ls : List Chars} {c : Call}
    (h : c ∈ (procLines hd ls).1) : ∃ d, c ∈ hd d := by
  induction ls with
  | nil => simp [procLines] at h
  | cons l ls ih =>
    by_cases hp : dataPrefix.isPrefixOf l = true
    · by_cases h6 : l.drop 6 = doneChars
      · simp [procLines, hp, h6] at h
      · simp only [procLines, hp, h6, if_true, if_false, ite_true, ite_false,
          if_pos, if_neg] at h
        rcases List.mem_append.mp h with h1 | h2
        · exact ⟨l.drop 6, h1⟩
        · exact ih h2
    · simp only [procLines] at h
      rw [if_neg hp] at h
      exact ih h


/-- Auxiliary: a callback produced by the buffered read loop comes from
the payload handler applied to some payload. -/
theorem mem_runStream {hd : Chars → List Call} {chunks : List Chars}
    {buf : Chars} {fin : Bool} {c : Call}
    (h : c ∈ runStream hd chunks buf fin) : ∃ d, c ∈ hd d := by
  induction chunks generalizing buf fin with
  | nil => simp [runStream] at h
  | cons ch cs ih =>
    cases fin with
    | true => simp [runStream] at h
    | false =>
      simp only [runStream] at h
      rcases List.mem_append.mp h with h1 | h2
      · exact mem_procLines h1
      · split at h2
        · simp at h2
        · exact ih h2

/-- Claim C9: on a continue stream, every `approval_required` event is
silently discarded by `submitApprovalAndContinue` (its dispatch has no
branch for that type), and no sequence of read chunks can ever make the
continue parser invoke an approval callback — so a second checkpoint can
never surface a second approval prompt through the continue call. -/
theorem c9_continueDiscardsApproval :
    (∀ e : Event, e.type = "approval_required" → handleEventContinue e = []) ∧
    (∀ (pj : Chars → Option Event) (chunks : List Chars) (ev : Event),
      Call.approvalRequired ev ∉ streamCalls (handleDataContinue pj) chunks) := by
  constructor
  · intro e h
    simp only [handleEventContinue]
    simp [h]
  · intro pj chunks ev hmem
    obtain ⟨d, hd⟩ := mem_runStream (hmem : _ ∈ runStream _ chunks [] false)
    cases hpj : pj d with
    | none => simp [handleDataContinue, hpj] at hd
    | some e =>
      simp only [handleDataContinue, hpj, handleEventContinue] at hd
      split_ifs at hd <;> simp_all

/-- Claim C9, witness: the concrete approval event is discarded, and no
approval callback arises from a concrete continue stream. -/
theorem c9_continueDiscardsApproval_witness :
    handleEventContinue approvalEvent = [] ∧
    Call.approvalRequired approvalEvent ∉
      streamCalls (handleDataContinue pjNone) ["data: x\n".toList] :=
  ⟨c9_continueDiscardsApproval.1 approvalEvent rfl,
   c9_continueDiscardsApproval.2 pjNone ["data: x\n".toList] approvalEvent⟩

/-- Auxiliary: a line whose payload is the `[DONE]` sentinel makes the
line-processing loop return at once, so the calls do not depend on what
follows that line. -/
theorem procLines_doneStops (hd : Chars → List Call) (pre post : List Chars) :
    (procLines hd (pre ++ (dataPrefix ++ doneChars) :: post)).1 =
      (procLines hd pre).1 := by
  induction pre with
  | nil =>
    have h1 : dataPrefix.isPrefixOf (dataPrefix ++ doneChars) = true := by decide
    have h2 : (dataPrefix ++ doneChars).drop 6 = doneChars := by decide
    simp [procLines, h1, h2]
  | cons l ls ih =>
    by_cases hp : dataPrefix.isPrefixOf l = true
    · by_cases h6 : l.drop 6 = doneChars
      · simp [procLines, hp, h6]
      · simp [procLines, hp, h6, ih]
    · simp [procLines, hp, ih]

/-- Auxiliary: once the buffered read loop has returned (after `[DONE]`),
no later chunk produces anything. -/
theorem runStream_finished (hd : Chars → List Call) (chunks : List Chars)
    (buf : Chars) : runStream hd chunks buf true = [] := by
  cases chunks <;> rfl

/-- Claim C2: for each of the three buffered stream parsers, a line whose
payload is the literal `[DONE]` sentinel ends processing at once — the
delivered callbacks do not depend on any line after it, and once the
parser has returned, later read chunks produce nothing. -/
theorem c2_doneTerminates (pj : Chars → Option Event) (hb : Bool)
    (pre post : List Chars) (buf : Chars) (chunks : List Chars) :
    dataPrefix ++ doneChars = "data: [DONE]".toList ∧
    (procLines (handleDataWorkflow pj hb)
        (pre ++ (dataPrefix ++ doneChars) :: post)).1 =
      (procLines (handleDataWorkflow pj hb) pre).1 ∧
    (procLines (handleDataImage pj hb)
        (pre ++ (dataPrefix ++ doneChars) :: post)).1 =
      (procLines (handleDataImage pj hb) pre).1 ∧
    (procLines (handleDataContinue pj)
        (pre ++ (dataPrefix ++ doneChars) :: post)).1 =
      (procLines (handleDataContinue pj) pre).1 ∧
    runStream (handleDataWorkflow pj hb) chunks buf true = [] ∧
    runStream (handleDataImage pj hb) chunks buf true = [] ∧
    runStream (handleDataContinue pj) chunks buf true = [] :=
  ⟨by decide,
   procLines_doneStops _ _ _, procLines_doneStops _ _ _,
   procLines_doneStops _ _ _,
   runStream_finished _ _ _, runStream_finished _ _ _,
   runStream_finished _ _ _⟩

/-- Auxiliary: a string with no newline splits into no complete line and
itself as leftover. -/
theorem splitBuf_of_no_newline {s : Chars} (h : '\n' ∉ s) :
    splitBuf s = ([], s) := by
  induction s with
  | nil => rfl
  | cons c cs ih =>
    have hc : ¬c = '\n' := by
      rintro rfl
      exact h (List.mem_cons_self _ _)
    have hcs := ih (fun m => h (List.mem_cons_of_mem c m))
    simp [splitBuf, hc, hcs]

/-- Auxiliary: the leftover of a line/buffer split never contains a
newline. -/
theorem splitBuf_rest_no_newline (s : Chars) : '\n' ∉ (splitBuf s).2 := by
  induction s with
  | nil => simp [splitBuf]
  | cons c cs ih =>
    by_cases hc : c = '\n'
    · simpa [splitBuf, hc] using ih
    · rcases hcs : splitBuf cs with ⟨lcs, r⟩
      rw [hcs] at ih
      cases lcs with
      | nil =>
        simp only [splitBuf, hcs, if_neg hc]
        simp only [List.mem_cons, not_or]
        exact ⟨fun e => hc e.symm, ih⟩
      | cons l ls =>
        simp only [splitBuf, hcs, if_neg hc]
        exact ih

/-- Auxiliary: splitting a concatenation glues the leftover of the left
part onto the first line of the right part. -/
theorem splitBuf_append (a b : Chars) :
    splitBuf (a ++ b) =
      glueLines (splitBuf a).1 (splitBuf a).2 (splitBuf b) := by
  induction a with
  | nil =>
    rcases hb : splitBuf b with ⟨lb, rb⟩
    cases lb <;> simp [splitBuf, glueLines, hb]
  | cons c a ih =>
    by_cases hc : c = '\n'
    · subst hc
      rcases ha : splitBuf a with ⟨la, ra⟩
      rcases hb : splitBuf b with ⟨lb, rb⟩
      rw [ha, hb] at ih
      simp only [List.cons_append, splitBuf, if_pos rfl, List.append_eq]
      rw [ih]
      cases lb <;> simp [glueLines, ha]
    · rcases ha : splitBuf a with ⟨la, ra⟩
      rcases hb : splitBuf b with ⟨lb, rb⟩
      rw [ha, hb] at ih
      simp only [List.cons_append, splitBuf, if_neg hc, List.append_eq]
      rw [ih]
      cases la <;> cases lb <;> simp [glueLines, ha]

/-- Auxiliary: the lines of a glued split are the left lines followed by
the lines glued from an empty left part. -/
theorem glueLines_lines (la : List Chars) (ra : Chars)
    (p : List Chars × Chars) :
    (glueLines la ra p).1 = la ++ (glueLines [] ra p).1 := by
  rcases p with ⟨_ | _, r⟩ <;> simp [glueLines]

/-- Auxiliary: processing a concatenation of line lists processes the
first part, and the second only when the first did not return. -/
theorem procLines_append (hd : Chars → List Call) (xs ys : List Chars) :
    procLines hd (xs ++ ys) =
      ((procLines hd xs).1 ++
        (if (procLines hd xs).2 then [] else (procLines hd ys).1),
       (procLines hd xs).2 || (procLines hd ys).2) := by
  induction xs with
  | nil => simp [procLines]
  | cons l ls ih =>
    by_cases hp : dataPrefix.isPrefixOf l = true
    · by_cases h6 : l.drop 6 = doneChars
      · simp [procLines, hp, h6]
      · simp [procLines, hp, h6, ih, List.append_assoc]
    · simp [procLines, hp, ih]

/-- Auxiliary: the buffered read loop on any chunk sequence delivers
exactly what line processing delivers on the complete lines of the
concatenated text, whatever the chunk boundaries. -/
theorem runStream_eq_join (hd : Chars → List Call) (chunks : List Chars)
    (buf : Chars) (h : '\n' ∉ buf) :
    runStream hd chunks buf false =
      (procLines hd (splitBuf (buf ++ chunks.flatten)).1).1 := by
  induction chunks generalizing buf with
  | nil =>
    simp [runStream, splitBuf_of_no_newline h, procLines]
  | cons c cs ih =>
    have hrest := splitBuf_rest_no_newline (buf ++ c)
    have hR : splitBuf ((splitBuf (buf ++ c)).2 ++ cs.flatten) =
        glueLines [] (splitBuf (buf ++ c)).2 (splitBuf cs.flatten) := by
      rw [splitBuf_append, splitBuf_of_no_newline hrest]
    have key : (splitBuf ((buf ++ c) ++ cs.flatten)).1 =
        (splitBuf (buf ++ c)).1 ++
          (splitBuf ((splitBuf (buf ++ c)).2 ++ cs.flatten)).1 := by
      rw [splitBuf_append (buf ++ c) cs.flatten, glueLines_lines, hR]
    have hjoin : buf ++ (c :: cs).flatten = (buf ++ c) ++ cs.flatten := by
      simp
    simp only [runStream]
    rw [ih _ hrest, hjoin, key, procLines_append]

/-- Auxiliary: the callbacks of a buffered stream parse depend only on
the concatenated text, not on the chunk boundaries. -/
theorem streamCalls_join (hd : Chars → List Call) (chunks : List Chars) :
    streamCalls hd chunks = streamCalls hd [chunks.flatten] := by
  unfold streamCalls
  rw [runStream_eq_join hd chunks [] (by simp),
    runStream_eq_join hd [chunks.flatten] [] (by simp)]
  simp

/-- Claim C8: parsing a workflow event stream is invariant under network
chunk boundaries — for each buffered parser, any sequence of reads
delivers exactly the callbacks of the same bytes arriving in a single
read, because the trailing incomplete line is buffered and completed by
the next read. -/
theorem c8_chunkInvariance (pj : Chars → Option Event) (hb : Bool)
    (chunks : List Chars) :
    streamCalls (handleDataWorkflow pj hb) chunks =
      streamCalls (handleDataWorkflow pj hb) [chunks.flatten] ∧
    streamCalls (handleDataImage pj hb) chunks =
      streamCalls (handleDataImage pj hb) [chunks.flatten] ∧
    streamCalls (handleDataContinue pj) chunks =
      streamCalls (handleDataContinue pj) [chunks.flatten] :=
  ⟨streamCalls_join _ _, streamCalls_join _ _, streamCalls_join _ _⟩

/-- Auxiliary: every position of an all-pending list reads `pending`. -/
theorem getiSt_replicate_pending (i a : Nat) :
    getiSt i (List.replicate a Status.pending) = Status.pending := by
  induction a generalizing i with
  | zero => cases i <;> rfl
  | succ a ih =>
    cases i with
    | zero => rfl
    | succ i =>
      simp only [List.replicate, getiSt]
      exact ih i

/-- Auxiliary: reading a position of an active-step snapshot. -/
theorem getiSt_snap (i done a : Nat) (s : Status) :
    getiSt i (snapSt done s a) =
      if i < done then Status.complete
      else if i = done then s else Status.pending := by
  induction done generalizing i with
  | zero =>
    cases i with
    | zero => simp [snapSt, getiSt]
    | succ i => simp [snapSt, getiSt, getiSt_replicate_pending]
  | succ d ih =>
    cases i with
    | zero => simp [snapSt, List.replicate, getiSt]
    | succ i =>
      have hshape : snapSt (d + 1) s a = Status.complete :: snapSt d s a := by
        simp [snapSt, List.replicate]
      rw [hshape]
      show getiSt i (snapSt d s a) = _
      rw [ih i]
      by_cases h1 : i < d
      · simp [h1, Nat.succ_lt_succ h1]
      · by_cases h2 : i = d
        · subst h2
          simp [h1]
        · have h1' : ¬i + 1 < d + 1 := by omega
          have h2' : ¬i + 1 = d + 1 := by omega
          simp [h1, h2, h1', h2']

/-- Auxiliary: reading a position of a resting state. -/
theorem getiSt_base (i done a : Nat) :
    getiSt i (baseSt done a) =
      if i < done then Status.complete else Status.pending := by
  induction done generalizing i with
  | zero => simp [baseSt, getiSt_replicate_pending]
  | succ d ih =>
    cases i with
    | zero => simp [baseSt, List.replicate, getiSt]
    | succ i =>
      have hshape : baseSt (d + 1) a = Status.complete :: baseSt d a := by
        simp [baseSt, List.replicate]
      rw [hshape]
      show getiSt i (baseSt d a) = _
      rw [ih i]
      by_cases h1 : i < d
      · simp [h1, Nat.succ_lt_succ h1]
      · have h1' : ¬i + 1 < d + 1 := by omega
        simp [h1, h1']

/-- Auxiliary: a step status never moves illegally from a resting state
to the next active snapshot. -/
theorem stepOk_base_active (i done a : Nat) :
    stepOk (getiSt i (baseSt done (a + 1)))
      (getiSt i (snapSt done Status.active a)) := by
  rw [getiSt_base, getiSt_snap]
  by_cases h1 : i < done
  · simp [h1, stepOk]
  · by_cases h2 : i = done <;> simp [h1, h2, stepOk]

/-- Auxiliary: a step status never moves illegally from an active
snapshot to the matching terminal snapshot. -/
theorem stepOk_active_term (i done a : Nat) (s : Status)
    (hs : s = Status.complete ∨ s = Status.rejected) :
    stepOk (getiSt i (snapSt done Status.active a))
      (getiSt i (snapSt done s a)) := by
  rw [getiSt_snap, getiSt_snap]
  rcases hs with rfl | rfl <;>
    · by_cases h1 : i < done
      · simp [h1, stepOk]
      · by_cases h2 : i = done <;> simp [h1, h2, stepOk]

/-- Auxiliary: completing the current step turns its snapshot into the
next resting state. -/
theorem snapSt_complete_eq_base (done a : Nat) :
    snapSt done Status.complete a = baseSt (done + 1) a := by
  simp [snapSt, baseSt, List.replicate_succ', List.append_assoc]

/-- Auxiliary: along every run trace of the modelled state machine, each
step index only ever moves forward through the admissible status
transitions. -/
theorem chainOk_aux (flags : List Bool) :
    ∀ (ds : List Bool) (done i : Nat),
      List.Chain' stepOk
        ((baseSt done flags.length :: runTraceAux done flags ds).map
          (getiSt i)) := by
  induction flags with
  | nil =>
    intro ds done i
    simp [runTraceAux]
  | cons f rest ih =>
    intro ds done i
    cases f with
    | false =>
      simp only [runTraceAux, Bool.false_eq_true, if_false, ite_false,
        if_neg, List.length_cons, List.map_cons, List.chain'_cons]
      refine ⟨stepOk_base_active i done rest.length,
        stepOk_active_term i done rest.length Status.complete (Or.inl rfl), ?_⟩
      have := ih ds (done + 1) i
      rw [snapSt_complete_eq_base]
      simpa [List.map_cons] using this
    | true =>
      cases ds with
      | nil =>
        simp only [runTraceAux, if_pos, ite_true, List.length_cons,
          List.map_cons, List.chain'_cons]
        exact ⟨stepOk_base_active i done rest.length,
          List.chain'_singleton _⟩
      | cons d ds' =>
        cases d with
        | true =>
          simp only [runTraceAux, if_pos, ite_true, List.length_cons,
            List.map_cons, List.chain'_cons]
          refine ⟨stepOk_base_active i done rest.length,
            stepOk_active_term i done rest.length Status.complete (Or.inl rfl), ?_⟩
          have := ih ds' (done + 1) i
          rw [snapSt_complete_eq_base]
          simpa [List.map_cons] using this
        | false =>
          simp only [runTraceAux, if_pos, ite_true, Bool.false_eq_true,
            if_false, ite_false, List.length_cons, List.map_cons,
            List.chain'_cons]
          exact ⟨stepOk_base_active i done rest.length,
            stepOk_active_term i done rest.length Status.rejected (Or.inr rfl),
            List.chain'_singleton _⟩

/-- Claim C7 (the backend run machine is modelled from the spec, see
`runTraceAux`): across the step-list states held by the client — the
`initWorkflow`/`resetWorkflow` all-pending state followed by the
snapshots of the streamed step events, which `updateSteps` mirrors
verbatim, preserving each entry status — the sequence of status values
observed for any step index is a subsequence of `pending`, `active`,
then `complete` or `rejected`: each move keeps the status or advances it
one stage, never skipping `active` and never regressing. -/
theorem c7_statusOrdering (flags ds : List Bool) (i : Nat)
    (cur : List WStep) (ns : List RawStep) (h : ns ≠ []) :
    List.Chain' stepOk ((clientStatusTrace flags ds).map (getiSt i)) ∧
    (updateSteps cur (some ns)).map WStep.status = ns.map RawStep.status := by
  constructor
  · exact chainOk_aux flags ds 0 i
  · have hlen : ns.length ≠ 0 := fun hl => h (List.length_eq_zero.mp hl)
    simp [updateSteps, hlen, Function.comp]

/-- Claim C7, witness: a concrete three-step run with a checkpoint at the
second step, approved, and a concrete nonempty `updateSteps` input. -/
theorem c7_statusOrdering_witness :
    List.Chain' stepOk
      ((clientStatusTrace [false, true, false] [true]).map (getiSt 1)) ∧
    (updateSteps [] (some [⟨"a", "A", "active"⟩])).map WStep.status =
      [RawStep.status ⟨"a", "A", "active"⟩] :=
  c7_statusOrdering [false, true, false] [true] 1 [] [⟨"a", "A", "active"⟩]
    (by decide)

end AIHub
